import Mathlib

set_option maxHeartbeats 1000000

/-!
Shallow embedding of the visual-regression comparison engine of this
repository (source files `00_all_methods_together.py`, `compare_simple.py`,
`utils_image_recog.py`).  Machine `uint8` samples are modelled as natural
numbers, `float` arithmetic as exact rationals.  External library
primitives (OpenCV, scikit-image, imagehash) are modelled from their
documented behaviour where a claim needs their values, and are otherwise
passed in as explicit function parameters, so that every repository-level
definition below is a direct translation of the Python source.
-/

namespace PyWin

/-- Pixel in BGR channel order, one natural number per 8-bit channel. -/
abbrev Pix : Type := ℕ × ℕ × ℕ

/-- In-memory raster image (a `h × w × 3` numpy array of `uint8`):
height, width, and a total pixel lookup function.  Only indices
`i < h`, `j < w` are meaningful; the comparators below never read
outside that range. -/
structure Img where
  h : ℕ
  w : ℕ
  px : ℕ → ℕ → Pix

/-- Model of `np.array_equal`: same shape and elementwise equal. -/
def arrayEqual (a b : Img) : Prop :=
  a.h = b.h ∧ a.w = b.w ∧ ∀ i < a.h, ∀ j < a.w, a.px i j = b.px i j

instance (a b : Img) : Decidable (arrayEqual a b) :=
  inferInstanceAs (Decidable (_ ∧ _ ∧ _))

/-- Floor of a rational, written out on the numerator and denominator so
that it evaluates by kernel reduction (provably equal to `⌊x⌋`,
see `ratFloor_eq`). -/
def ratFloor (x : ℚ) : ℤ := x.num / (x.den : ℤ)

/-- Rounding of an exact rational sample average back to an 8-bit
integer sample.  Every place this development evaluates it, the argument
is an exact integer, where all rounding conventions agree. -/
def qround (x : ℚ) : ℕ := (ratFloor (x + 1/2)).toNat

/-- Overlap length between the source cell `[s, s+1)` and the target
cell `k` mapped into source coordinates, i.e. `[k·n/N, (k+1)·n/N)`:
the elementary weight of exact area-average resampling from `n` source
samples to `N` target samples along one axis. -/
def areaWeight (n N k s : ℕ) : ℚ :=
  max 0 (min (((k : ℚ) + 1) * n / N) ((s : ℚ) + 1) - max ((k : ℚ) * n / N) (s : ℚ))

/-- One channel of area-average resampling from an `h × w` grid to an
`H × W` grid: the weighted average of the source samples over the target
cell `(i, j)` (the sum of the weights is `(h/H)·(w/W)`, hence the final
factor). -/
def resizeChan (f : ℕ → ℕ → ℕ) (h w H W : ℕ) (i j : ℕ) : ℚ :=
  (∑ t ∈ Finset.range h, ∑ s ∈ Finset.range w,
      areaWeight h H i t * areaWeight w W j s * (f t s : ℚ)) * (H * W : ℚ) / (h * w)

/-- Model of `cv2.resize(img, (W, H), interpolation=cv2.INTER_AREA)`:
exact area averaging of the source over each target cell, per channel,
rounded back to integer samples. -/
def cvResizeArea (img : Img) (W H : ℕ) : Img where
  h := H
  w := W
  px := fun i j =>
    (qround (resizeChan (fun t s => (img.px t s).1) img.h img.w H W i j),
     qround (resizeChan (fun t s => (img.px t s).2.1) img.h img.w H W i j),
     qround (resizeChan (fun t s => (img.px t s).2.2) img.h img.w H W i j))

/-- Source `00_all_methods_together.py`, `cmp_exact_after_resize` (the
same function appears as `compare_exact_after_resize` in
`compare_simple.py`): resize the reference to the screenshot's exact
dimensions with INTER_AREA, then `np.array_equal`; the score is `1.0`
when equal, else `0.0`, and the passed flag is the equality itself. -/
def cmp_exact_after_resize (ref scr : Img) : Bool × ℚ :=
  let ref_r := cvResizeArea ref scr.w scr.h
  let equal : Bool := decide (arrayEqual ref_r scr)
  (equal, if equal then 1 else 0)

/-- Single-channel (grayscale) raster with natural-number samples. -/
structure GImg where
  h : ℕ
  w : ℕ
  px : ℕ → ℕ → ℕ

/-- Model of `to_gray` (`utils_image_recog.py`), i.e.
`cv2.cvtColor(img, cv2.COLOR_BGR2GRAY)` on `uint8`: OpenCV's fixed-point
luminance projection `(1868·B + 9617·G + 4899·R + 2^13) >> 14` (the three
coefficients sum to `2^14`, so equal-channel pixels map to themselves). -/
def to_gray (img : Img) : GImg where
  h := img.h
  w := img.w
  px := fun i j =>
    (1868 * (img.px i j).1 + 9617 * (img.px i j).2.1 + 4899 * (img.px i j).2.2 + 8192) / 16384

/-- Sum of a function over the 7×7 window whose top-left corner is
`(i, j)`; 7 is skimage's default (and the source's) SSIM window size. -/
def wsum (f : ℕ → ℕ → ℚ) (i j : ℕ) : ℚ :=
  ∑ a ∈ Finset.range 7, ∑ b ∈ Finset.range 7, f (i + a) (j + b)

/-- SSIM stabilisation constant `(K1·data_range)^2 = (0.01·255)^2`. -/
def ssimC1 : ℚ := (255 / 100) ^ 2

/-- SSIM stabilisation constant `(K2·data_range)^2 = (0.03·255)^2`. -/
def ssimC2 : ℚ := (3 * 255 / 100) ^ 2

/-- Local SSIM value for the 7×7 window at top-left `(i, j)`, exactly as
`skimage.metrics.structural_similarity` computes it with its defaults on
`uint8` input: uniform (non-Gaussian) window, sample covariance
normalisation `NP/(NP−1) = 49/48`, `K1 = 0.01`, `K2 = 0.03`,
`data_range = 255`. -/
def ssimLocal (X Y : ℕ → ℕ → ℚ) (i j : ℕ) : ℚ :=
  let ux := wsum X i j / 49
  let uy := wsum Y i j / 49
  let vx := 49 / 48 * (wsum (fun a b => X a b * X a b) i j / 49 - ux * ux)
  let vy := 49 / 48 * (wsum (fun a b => Y a b * Y a b) i j / 49 - uy * uy)
  let vxy := 49 / 48 * (wsum (fun a b => X a b * Y a b) i j / 49 - ux * uy)
  (2 * ux * uy + ssimC1) * (2 * vxy + ssimC2) /
    ((ux * ux + uy * uy + ssimC1) * (vx + vy + ssimC2))

/-- Model of `skimage.metrics.structural_similarity(X, Y)` (scalar value)
on two grayscale `uint8` images of equal shape: the mean of the local
SSIM map over the border-cropped grid (skimage crops `pad = 3` on every
side, leaving the `(h−6)·(w−6)` window positions fully inside the
image).  Meaningful only for images at least 7×7, exactly as in skimage
(which rejects smaller inputs). -/
def structural_similarity (X Y : GImg) : ℚ :=
  (∑ i ∈ Finset.range (X.h - 6), ∑ j ∈ Finset.range (X.w - 6),
      ssimLocal (fun a b => (X.px a b : ℚ)) (fun a b => (Y.px a b : ℚ)) i j) /
    (((X.h - 6) * (X.w - 6) : ℕ) : ℚ)

/-- Source `00_all_methods_together.py`, `cmp_ssim_after_resize`
(scalar score; the per-pixel diff visualisation the source also returns
is report-only data never read by the decision logic). -/
def cmp_ssim_after_resize (ref scr : Img) : ℚ :=
  let ref_r := cvResizeArea ref scr.w scr.h
  structural_similarity (to_gray scr) (to_gray ref_r)

/-- A 64-bit perceptual hash, as produced by `imagehash.phash` (the
library's default hash size is 8×8 = 64 bits). -/
abbrev Hash64 := Fin 64 → Bool

/-- Hamming distance between two 64-bit hashes: the number of differing
bits, which is what `imagehash`'s hash subtraction returns. -/
def hammingDist (a b : Hash64) : ℕ := (Finset.univ.filter (fun i => a i ≠ b i)).card

/-- Source `00_all_methods_together.py`, `cmp_phash`, parametrised by the
external hash function (`imagehash.phash` composed with the PIL
conversion): score `1 − hamming/64`. -/
def cmp_phash (phashFn : Img → Hash64) (ref scr : Img) : ℚ :=
  1 - (hammingDist (phashFn ref) (phashFn scr) : ℚ) / 64

/-- Source `utils_image_recog.py`, `resize_keep_aspect`: scale down
preserving aspect ratio only when the image exceeds the bounds
(`scale = min(max_w/w, max_h/h)`; Python's `int()` truncates, which on
nonnegative values is the floor). -/
def resize_keep_aspect (img : Img) (max_w max_h : ℕ) : Img :=
  let scale : ℚ := min ((max_w : ℚ) / img.w) ((max_h : ℚ) / img.h)
  if 1 ≤ scale then img
  else cvResizeArea img (ratFloor ((img.w : ℚ) * scale)).toNat
    (ratFloor ((img.h : ℚ) * scale)).toNat

/-- The reference image actually handed to `cv2.matchTemplate` by
`cmp_template`: downscaled to fit when wider or taller than the
screenshot, unchanged otherwise. -/
def templateRef (ref scr : Img) : Img :=
  if scr.w < ref.w ∨ scr.h < ref.h then resize_keep_aspect ref scr.w scr.h else ref

/-- Source `00_all_methods_together.py`, `cmp_template`, parametrised by
the external matcher (`cv2.matchTemplate` with `TM_CCOEFF_NORMED`
followed by `cv2.minMaxLoc`), modelled as returning the maximum
correlation value and its location `(x, y)`.  Returns
`(max_val, top_left, bottom_right)` with
`bottom_right = top_left + (w_r, h_r)` of the possibly-downscaled
reference. -/
def cmp_template (matchFn : Img → Img → ℚ × ℕ × ℕ) (ref scr : Img) :
    ℚ × (ℕ × ℕ) × (ℕ × ℕ) :=
  let tref := templateRef ref scr
  let out := matchFn scr tref
  (out.1, (out.2.1, out.2.2), (out.2.1 + tref.w, out.2.2 + tref.h))

/-- Keypoint location, as `cv2.KeyPoint.pt`. -/
abbrev Pt := ℚ × ℚ

/-- Opaque stand-in for an ORB descriptor matrix. -/
abbrev Desc := List (List Bool)

/-- A `cv2.DMatch`: descriptor distance plus query/train indices. -/
structure DM where
  distance : ℚ
  queryIdx : ℕ
  trainIdx : ℕ

/-- The external OpenCV primitives `cmp_orb` calls:
`ORB_create(nfeatures=1500).detectAndCompute` (keypoints plus optional
descriptors), `BFMatcher(NORM_HAMMING).knnMatch` with `k = 2` (pairs of
best and second-best matches), and `cv2.findHomography(..., RANSAC, 5.0)`
(returning `none` when either the homography or the mask is `None`,
otherwise the inlier mask, one entry per input point). -/
structure OrbPrims where
  detect : GImg → List Pt × Option Desc
  knn : Desc → Desc → List (DM × DM)
  homography : List Pt → List Pt → Option (List Bool)

/-- Source `00_all_methods_together.py`, `cmp_orb`: returns
`(ratio, inliers, good_match_count)`.  Short-circuits with score 0 when
either image yields no descriptors or fewer than 10 keypoints, when
fewer than 8 matches survive Lowe's `0.75` ratio test, or when
homography estimation fails; otherwise the score is
`inliers / max(1, good_match_count)`. -/
def cmp_orb (P : OrbPrims) (ref scr : Img) : ℚ × ℕ × ℕ :=
  let d1 := P.detect (to_gray ref)
  let d2 := P.detect (to_gray scr)
  match d1.2, d2.2 with
  | some des1, some des2 =>
    if d1.1.length < 10 ∨ d2.1.length < 10 then (0, 0, 0)
    else
      let good := ((P.knn des1 des2).filter
        (fun mn => decide (mn.1.distance < 3 / 4 * mn.2.distance))).map Prod.fst
      if good.length < 8 then (0, 0, good.length)
      else
        match P.homography (good.map (fun m => d1.1.getD m.queryIdx (0, 0)))
            (good.map (fun m => d2.1.getD m.trainIdx (0, 0))) with
        | none => (0, 0, good.length)
        | some mask =>
          ((mask.count true : ℚ) / ((max 1 good.length : ℕ) : ℚ),
            mask.count true, good.length)
  | _, _ => (0, 0, 0)

/-- The THRESHOLDS configuration dict of `00_all_methods_together.py`
(default values `0.985`, `0.90`, `0.95`, `0.35`, `12`). -/
structure Thresh where
  ssimT : ℚ
  phashT : ℚ
  templateT : ℚ
  orbRatioT : ℚ
  orbMinInliers : ℕ
deriving DecidableEq

/-- The default THRESHOLDS values of the source. -/
def THRESHOLDS : Thresh := ⟨197 / 200, 9 / 10, 19 / 20, 7 / 20, 12⟩

/-- The closed method enumeration, with the source's string names. -/
inductive Method where
  | exact
  | resize_ssim
  | phash
  | template
  | orb
deriving DecidableEq

/-- One entry of the `results` list of `main`: method name, score and
pass flag.  The `details` dict of the source carries only report
artifacts (file paths, diff maps, counts) that the decision logic never
reads, so it is not part of this model. -/
structure CR where
  method : Method
  score : ℚ
  passed : Bool
deriving DecidableEq

/-- The `results` list exactly as `main` appends it: exact, then
resize_ssim (passed iff score ≥ ssim threshold), then phash, then
template, then orb (passed iff score ≥ ratio threshold AND
inliers ≥ minimum inlier count). -/
def mkResults (t : Thresh) (ex : Bool × ℚ) (ss ph tm : ℚ) (orb : ℚ × ℕ × ℕ) : List CR :=
  [⟨.exact, ex.2, ex.1⟩,
   ⟨.resize_ssim, ss, decide (t.ssimT ≤ ss)⟩,
   ⟨.phash, ph, decide (t.phashT ≤ ph)⟩,
   ⟨.template, tm, decide (t.templateT ≤ tm)⟩,
   ⟨.orb, orb.1, decide (t.orbRatioT ≤ orb.1) && decide (t.orbMinInliers ≤ orb.2.1)⟩]

/-- The `order` tie-break lookup dict of `main`: resize_ssim 0, exact 1,
template 2, orb 3, phash 4.  The dict lookup's default of 99 for unknown
keys cannot arise, the enumeration being closed. -/
def methodOrder : Method → ℕ
  | .resize_ssim => 0
  | .exact => 1
  | .template => 2
  | .orb => 3
  | .phash => 4

/-- The ascending-lexicographic comparison on Python's sort key
`(-score, order[method])` used by `sorted` in `main`. -/
def keyLe (a b : CR) : Bool :=
  decide (-a.score < -b.score) ||
    (decide (-a.score = -b.score) && decide (methodOrder a.method ≤ methodOrder b.method))

/-- The candidate pool of `main`: `passed if passed else results`
(Python's empty list is falsy). -/
def candidatePool (results : List CR) : List CR :=
  let passed := results.filter (·.passed)
  if passed.isEmpty then results else passed

/-- Selection step of `main`: `sorted(pool, key=...)[0]`, i.e. the head
of the pool stably sorted by the key `(-score, order[method])`. -/
def pickBest (results : List CR) : Option CR :=
  ((candidatePool results).mergeSort keyLe).head?

/-- The five comparator results of one invocation of `main`, given the
external library primitives. -/
def engineResults (t : Thresh) (hashFn : Img → Hash64)
    (matchFn : Img → Img → ℚ × ℕ × ℕ) (P : OrbPrims) (ref scr : Img) : List CR :=
  mkResults t (cmp_exact_after_resize ref scr) (cmp_ssim_after_resize ref scr)
    (cmp_phash hashFn ref scr) (cmp_template matchFn ref scr).1 (cmp_orb P ref scr)

/-- The summary dict `main` prints. -/
structure Summary where
  per_method : List CR
  best : CR
  thresholds : Thresh
deriving DecidableEq

/-- Assembly of the summary from the results list.  The `getD` default is
unreachable: `main`'s results list always has five entries, so the pool
is never empty. -/
def buildSummary (t : Thresh) (results : List CR) : Summary :=
  ⟨results, (pickBest results).getD ⟨.exact, 0, false⟩, t⟩

/-- The whole comparison engine of `main` as a function of the two loaded
images (file loading, report writing and printing are the external
plumbing around it). -/
def mainSummary (t : Thresh) (hashFn : Img → Hash64)
    (matchFn : Img → Img → ℚ × ℕ × ℕ) (P : OrbPrims) (ref scr : Img) : Summary :=
  buildSummary t (engineResults t hashFn matchFn P ref scr)

/-- The body of `main` with the possibility of a comparator raising made
explicit: `main` calls the five comparators in sequence with no
try/except whatsoever, so an exception in any one of them propagates and
aborts the invocation.  Each argument is the outcome of the
corresponding comparator call, in the source's call order. -/
def mainE (t : Thresh) (ex : Except String (Bool × ℚ)) (ss : Except String ℚ)
    (ph : Except String ℚ) (tm : Except String (ℚ × (ℕ × ℕ) × (ℕ × ℕ)))
    (orb : Except String (ℚ × ℕ × ℕ)) : Except String Summary := do
  let exv ← ex
  let ssv ← ss
  let phv ← ph
  let tmv ← tm
  let orbv ← orb
  pure (buildSummary t (mkResults t exv ssv phv tmv.1 orbv))

/-- Priority rank written down by the spec:
StructuralSimilarity > Exact > TemplateLocalization > FeatureGeometric >
PerceptualHash. -/
def specPriority : Method → ℕ
  | .resize_ssim => 0
  | .exact => 1
  | .template => 2
  | .orb => 3
  | .phash => 4

/-- Comparison as described by the spec: score descending, ties broken
by the fixed priority order. -/
def specLe (a b : CR) : Bool :=
  decide (b.score < a.score) ||
    (decide (a.score = b.score) && decide (specPriority a.method ≤ specPriority b.method))

/-- The aggregation exactly as the spec words it: pool is the passed
results if non-empty else all results; best is the first element after
sorting the pool by score descending with priority tie-break. -/
def specBest (results : List CR) : Option CR :=
  let passed := results.filter (·.passed)
  let pool := if passed = [] then results else passed
  (pool.mergeSort specLe).head?

/-- Any outcome an implementation of `sorted(pool, key=...)[0]` could
return: the head of some permutation of the candidate pool that is
pairwise ordered by the sort key.  The engine's selection is
deterministic exactly when this relation admits at most one value. -/
def ValidBest (results : List CR) (b : CR) : Prop :=
  ∃ l : List CR, l.Perm (candidatePool results) ∧
    l.Pairwise (fun a c => keyLe a c = true) ∧ l.head? = some b

/-- Relational description of one invocation of the engine: the produced
summary lists the five per-method results, its best is some valid
outcome of the sort-and-pick step, and it records the thresholds used.
Anything a run of `main` prints satisfies this. -/
def ProducesSummary (t : Thresh) (hashFn : Img → Hash64)
    (matchFn : Img → Img → ℚ × ℕ × ℕ) (P : OrbPrims) (ref scr : Img)
    (s : Summary) : Prop :=
  s.per_method = engineResults t hashFn matchFn P ref scr ∧
  ValidBest (engineResults t hashFn matchFn P ref scr) s.best ∧
  s.thresholds = t


/-- Trivial hash primitive: every bit off; used in concrete
instantiations. -/
def hash0 : Img → Hash64 := fun _ _ => false

/-- Hash primitive keyed to the first pixel: two images differing there
get complementary hashes (Hamming distance 64). -/
def hashA : Img → Hash64 := fun img _ => decide ((img.px 0 0).1 = 7)

/-- Template matcher stub returning correlation 0 at the origin. -/
def match0 : Img → Img → ℚ × ℕ × ℕ := fun _ _ => (0, 0, 0)

/-- ORB primitives of a degenerate detector (no features at all). -/
def orbPrims0 : OrbPrims := ⟨fun _ => ([], none), fun _ _ => [], fun _ _ => none⟩

/-- ORB primitives producing 10 keypoints, 8 unambiguous matches and a
homography whose mask marks all 8 matches as inliers. -/
def orbPrims8 : OrbPrims :=
  ⟨fun _ => (List.replicate 10 (0, 0), some []),
   fun _ _ => List.replicate 8 (⟨0, 0, 0⟩, ⟨1, 0, 0⟩),
   fun _ _ => some (List.replicate 8 true)⟩

/-- One-pixel black image. -/
def img1 : Img := ⟨1, 1, fun _ _ => (0, 0, 0)⟩

/-- One-pixel image with every channel 7. -/
def img7 : Img := ⟨1, 1, fun _ _ => (7, 7, 7)⟩

/-- Equal-channel 7×7 checkerboard: white where `i + j` is even. -/
def imgCheck : Img :=
  ⟨7, 7, fun i j => if (i + j) % 2 = 0 then (255, 255, 255) else (0, 0, 0)⟩

/-- The photometric inverse of `imgCheck`. -/
def imgCheckInv : Img :=
  ⟨7, 7, fun i j => if (i + j) % 2 = 0 then (0, 0, 0) else (255, 255, 255)⟩

/-! Lemmas about the embedded definitions. -/

lemma ratFloor_eq (x : ℚ) : ratFloor x = ⌊x⌋ := Rat.floor_def.symm

lemma qround_natCast (n : ℕ) : qround (n : ℚ) = n := by
  unfold qround
  rw [ratFloor_eq]
  have hfl : ⌊(n : ℚ) + 1/2⌋ = (n : ℤ) :=
    Int.floor_eq_iff.mpr ⟨by push_cast; linarith, by push_cast; linarith⟩
  rw [hfl, Int.toNat_natCast]

lemma areaWeight_self (n k s : ℕ) (hk : k < n) :
    areaWeight n n k s = if s = k then 1 else 0 := by
  have hn : (n : ℚ) ≠ 0 := Nat.cast_ne_zero.mpr (by omega)
  unfold areaWeight
  rw [mul_div_assoc, div_self hn, mul_one, mul_div_assoc, div_self hn, mul_one]
  rcases lt_trichotomy s k with hlt | heq | hgt
  · have h1 : ((s : ℚ) + 1) ≤ (k : ℚ) := by exact_mod_cast hlt
    have h2 : min ((k : ℚ) + 1) ((s : ℚ) + 1) = (s : ℚ) + 1 := by
      apply min_eq_right; linarith
    have h3 : max ((k : ℚ)) ((s : ℚ)) = (k : ℚ) := by
      apply max_eq_left; exact_mod_cast hlt.le
    rw [h2, h3, if_neg hlt.ne]
    apply max_eq_left; linarith
  · subst heq
    simp only [min_self, max_self, if_pos rfl]
    have hone : (s : ℚ) + 1 - s = 1 := by ring
    rw [hone]
    norm_num
  · have h1 : (k : ℚ) + 1 ≤ (s : ℚ) := by exact_mod_cast hgt
    have h2 : min ((k : ℚ) + 1) ((s : ℚ) + 1) = (k : ℚ) + 1 := by
      apply min_eq_left; linarith
    have h3 : max ((k : ℚ)) ((s : ℚ)) = (s : ℚ) := by
      apply max_eq_right; exact_mod_cast hgt.le
    rw [h2, h3, if_neg hgt.ne']
    apply max_eq_left; linarith

lemma resizeChan_self (f : ℕ → ℕ → ℕ) (h w i j : ℕ) (hi : i < h) (hj : j < w) :
    resizeChan f h w h w i j = f i j := by
  have hh : (h : ℚ) ≠ 0 := Nat.cast_ne_zero.mpr (Nat.pos_of_ne_zero (by omega)).ne'
  have hw : (w : ℚ) ≠ 0 := Nat.cast_ne_zero.mpr (Nat.pos_of_ne_zero (by omega)).ne'
  unfold resizeChan
  have hsum :
      (∑ t ∈ Finset.range h, ∑ s ∈ Finset.range w,
        areaWeight h h i t * areaWeight w w j s * (f t s : ℚ)) = f i j := by
    rw [Finset.sum_eq_single i]
    · rw [Finset.sum_eq_single j]
      · rw [areaWeight_self h i i hi, areaWeight_self w j j hj]
        simp
      · intro s hs hsj
        rw [areaWeight_self w j s hj, if_neg hsj]
        ring
      · intro hj2
        exact absurd (Finset.mem_range.mpr hj) hj2
    · intro t ht hti
      have : areaWeight h h i t = 0 := by
        rw [areaWeight_self h i t hi, if_neg hti]
      rw [this]
      simp
    · intro hi2
      exact absurd (Finset.mem_range.mpr hi) hi2
  rw [hsum]
  field_simp

lemma cvResizeArea_self (img : Img) : arrayEqual (cvResizeArea img img.w img.h) img := by
  refine ⟨rfl, rfl, ?_⟩
  intro i hi j hj
  show (qround _, qround _, qround _) = img.px i j
  have hi' : i < img.h := hi
  have hj' : j < img.w := hj
  rw [resizeChan_self _ _ _ _ _ hi' hj', resizeChan_self _ _ _ _ _ hi' hj',
      resizeChan_self _ _ _ _ _ hi' hj', qround_natCast, qround_natCast, qround_natCast]

lemma structural_similarity_of_small {X Y : GImg} (h : X.h ≤ 6 ∨ X.w ≤ 6) :
    structural_similarity X Y = 0 := by
  unfold structural_similarity
  rcases h with h | h
  · rw [show X.h - 6 = 0 by omega]
    simp
  · rw [show X.w - 6 = 0 by omega]
    simp

lemma cmp_ssim_small (ref scr : Img) (h : scr.h ≤ 6 ∨ scr.w ≤ 6) :
    cmp_ssim_after_resize ref scr = 0 :=
  structural_similarity_of_small h

lemma arrayEqual_trans {a b c : Img} (h1 : arrayEqual a b) (h2 : arrayEqual b c) :
    arrayEqual a c := by
  obtain ⟨hh1, hw1, hp1⟩ := h1
  obtain ⟨hh2, hw2, hp2⟩ := h2
  refine ⟨hh1.trans hh2, hw1.trans hw2, ?_⟩
  intro i hi j hj
  rw [hp1 i hi j hj, hp2 i (hh1 ▸ hi) j (hw1 ▸ hj)]

lemma arrayEqual_symm {a b : Img} (h : arrayEqual a b) : arrayEqual b a := by
  obtain ⟨hh, hw, hp⟩ := h
  refine ⟨hh.symm, hw.symm, ?_⟩
  intro i hi j hj
  rw [hp i (hh ▸ hi) j (hw ▸ hj)]

lemma cmp_exact_eq_of {ref scr : Img}
    (h : arrayEqual (cvResizeArea ref scr.w scr.h) scr) :
    cmp_exact_after_resize ref scr = (true, 1) := by
  show (decide (arrayEqual (cvResizeArea ref scr.w scr.h) scr),
    if decide (arrayEqual (cvResizeArea ref scr.w scr.h) scr) then (1 : ℚ) else 0) = _
  rw [decide_eq_true h]
  simp

lemma cmp_exact_eq_of_not {ref scr : Img}
    (h : ¬ arrayEqual (cvResizeArea ref scr.w scr.h) scr) :
    cmp_exact_after_resize ref scr = (false, 0) := by
  show (decide (arrayEqual (cvResizeArea ref scr.w scr.h) scr),
    if decide (arrayEqual (cvResizeArea ref scr.w scr.h) scr) then (1 : ℚ) else 0) = _
  rw [decide_eq_false h]
  simp


lemma methodOrder_eq_specPriority : methodOrder = specPriority := by
  funext m; cases m <;> rfl

lemma keyLe_eq_specLe : keyLe = specLe := by
  funext a b
  unfold keyLe specLe
  rw [methodOrder_eq_specPriority]
  have h1 : decide (-a.score < -b.score) = decide (b.score < a.score) :=
    decide_eq_decide.mpr neg_lt_neg_iff
  have h2 : decide (-a.score = -b.score) = decide (a.score = b.score) :=
    decide_eq_decide.mpr neg_inj
  rw [h1, h2]

lemma candidatePool_eq (results : List CR) :
    candidatePool results =
      if results.filter (·.passed) = [] then results
      else results.filter (·.passed) := by
  unfold candidatePool
  rcases eq_or_ne (results.filter (·.passed)) [] with h | h
  · simp [h]
  · rw [if_neg h, if_neg (by simpa [List.isEmpty_iff] using h)]

lemma pickBest_eq_specBest (results : List CR) : pickBest results = specBest results := by
  unfold pickBest specBest
  rw [candidatePool_eq, keyLe_eq_specLe]

lemma keyLe_refl (a : CR) : keyLe a a = true := by
  unfold keyLe; simp

lemma keyLe_total (a b : CR) : (keyLe a b || keyLe b a) = true := by
  unfold keyLe
  simp only [Bool.or_eq_true, Bool.and_eq_true, decide_eq_true_eq]
  rcases lt_trichotomy (-a.score) (-b.score) with h | h | h
  · exact Or.inl (Or.inl h)
  · rcases Nat.le_total (methodOrder a.method) (methodOrder b.method) with h2 | h2
    · exact Or.inl (Or.inr ⟨h, h2⟩)
    · exact Or.inr (Or.inr ⟨h.symm, h2⟩)
  · exact Or.inr (Or.inl h)

lemma keyLe_trans (a b c : CR) (h1 : keyLe a b = true) (h2 : keyLe b c = true) :
    keyLe a c = true := by
  unfold keyLe at h1 h2 ⊢
  simp only [Bool.or_eq_true, Bool.and_eq_true, decide_eq_true_eq] at h1 h2 ⊢
  rcases h1 with h1 | ⟨h1e, h1o⟩
  · rcases h2 with h2 | ⟨h2e, h2o⟩
    · exact Or.inl (h1.trans h2)
    · exact Or.inl (h2e ▸ h1)
  · rcases h2 with h2 | ⟨h2e, h2o⟩
    · exact Or.inl (h1e ▸ h2)
    · exact Or.inr ⟨h1e.trans h2e, h1o.trans h2o⟩

lemma keyLe_antisymm_key {a b : CR} (h1 : keyLe a b = true) (h2 : keyLe b a = true) :
    a.score = b.score ∧ a.method = b.method := by
  unfold keyLe at h1 h2
  simp only [Bool.or_eq_true, Bool.and_eq_true, decide_eq_true_eq] at h1 h2
  have hm : ∀ m1 m2 : Method, methodOrder m1 = methodOrder m2 → m1 = m2 := by
    intro m1 m2
    cases m1 <;> cases m2 <;> simp [methodOrder]
  rcases h1 with h1 | ⟨h1e, h1o⟩
  · rcases h2 with h2 | ⟨h2e, h2o⟩
    · exact absurd h1 (lt_asymm h2)
    · exact absurd h1 (h2e ▸ lt_irrefl _)
  · rcases h2 with h2 | ⟨h2e, h2o⟩
    · exact absurd h2 (h1e ▸ lt_irrefl _)
    · exact ⟨neg_inj.mp h1e, hm _ _ (Nat.le_antisymm h1o h2o)⟩


lemma head_of_sorted_min {l : List CR} {b : CR}
    (hs : l.Pairwise (fun a c => keyLe a c = true)) (hh : l.head? = some b) :
    ∀ x ∈ l, keyLe b x = true := by
  cases l with
  | nil => cases hh
  | cons y t =>
    have hyb : y = b := by simpa using hh
    subst hyb
    intro x hx
    rcases List.mem_cons.mp hx with h | h
    · rw [h]; exact keyLe_refl y
    · exact (List.pairwise_cons.mp hs).1 x h

lemma candidatePool_subset {results : List CR} :
    ∀ x ∈ candidatePool results, x ∈ results := by
  intro x hx
  rw [candidatePool_eq] at hx
  split at hx
  · exact hx
  · exact List.mem_of_mem_filter hx

lemma pool_methods_nodup {results : List CR}
    (hn : (results.map CR.method).Nodup) :
    ((candidatePool results).map CR.method).Nodup := by
  rw [candidatePool_eq]
  split
  · exact hn
  · exact hn.sublist ((List.filter_sublist _).map CR.method)

lemma validBest_unique {results : List CR}
    (hn : (results.map CR.method).Nodup) {b1 b2 : CR}
    (h1 : ValidBest results b1) (h2 : ValidBest results b2) : b1 = b2 := by
  obtain ⟨l1, hp1, hs1, hh1⟩ := h1
  obtain ⟨l2, hp2, hs2, hh2⟩ := h2
  have hb1l : b1 ∈ l1 := by
    cases l1 with
    | nil => cases hh1
    | cons y t => simp_all
  have hb2l : b2 ∈ l2 := by
    cases l2 with
    | nil => cases hh2
    | cons y t => simp_all
  have hm1 : b1 ∈ candidatePool results := hp1.mem_iff.mp hb1l
  have hm2 : b2 ∈ candidatePool results := hp2.mem_iff.mp hb2l
  have h12 : keyLe b1 b2 = true :=
    head_of_sorted_min hs1 hh1 b2 (hp1.mem_iff.mpr hm2)
  have h21 : keyLe b2 b1 = true :=
    head_of_sorted_min hs2 hh2 b1 (hp2.mem_iff.mpr hm1)
  exact List.inj_on_of_nodup_map (pool_methods_nodup hn) hm1 hm2
    (keyLe_antisymm_key h12 h21).2

lemma validBest_pickBest {results : List CR} {b : CR}
    (h : pickBest results = some b) : ValidBest results b :=
  ⟨(candidatePool results).mergeSort keyLe,
   List.mergeSort_perm _ _,
   List.sorted_mergeSort keyLe_trans keyLe_total _,
   h⟩

lemma engine_methods_nodup (t : Thresh) (hashFn : Img → Hash64)
    (matchFn : Img → Img → ℚ × ℕ × ℕ) (P : OrbPrims) (ref scr : Img) :
    ((engineResults t hashFn matchFn P ref scr).map CR.method).Nodup := by
  show ([Method.exact, .resize_ssim, .phash, .template, .orb]).Nodup
  decide


lemma wsum_ext {f g : ℕ → ℕ → ℚ} (h : ∀ a b, f a b = g a b) (i j : ℕ) :
    wsum f i j = wsum g i j := by
  unfold wsum
  exact Finset.sum_congr rfl fun a _ => Finset.sum_congr rfl fun b _ => h _ _

lemma wsum_window_congr {f g : ℕ → ℕ → ℚ} (i j : ℕ)
    (h : ∀ a < 7, ∀ b < 7, f (i + a) (j + b) = g (i + a) (j + b)) :
    wsum f i j = wsum g i j := by
  unfold wsum
  apply Finset.sum_congr rfl
  intro a ha
  apply Finset.sum_congr rfl
  intro b hb
  exact h a (Finset.mem_range.mp ha) b (Finset.mem_range.mp hb)

lemma wsum_add (f g : ℕ → ℕ → ℚ) (i j : ℕ) :
    wsum (fun a b => f a b + g a b) i j = wsum f i j + wsum g i j := by
  unfold wsum
  rw [← Finset.sum_add_distrib]
  apply Finset.sum_congr rfl
  intro a _
  exact Finset.sum_add_distrib

lemma wsum_sub (f g : ℕ → ℕ → ℚ) (i j : ℕ) :
    wsum (fun a b => f a b - g a b) i j = wsum f i j - wsum g i j := by
  unfold wsum
  rw [← Finset.sum_sub_distrib]
  apply Finset.sum_congr rfl
  intro a _
  exact Finset.sum_sub_distrib

lemma wsum_mul_left (c : ℚ) (f : ℕ → ℕ → ℚ) (i j : ℕ) :
    wsum (fun a b => c * f a b) i j = c * wsum f i j := by
  unfold wsum
  rw [Finset.mul_sum]
  apply Finset.sum_congr rfl
  intro a _
  rw [Finset.mul_sum]

lemma wsum_nonneg {f : ℕ → ℕ → ℚ} (hf : ∀ a b, 0 ≤ f a b) (i j : ℕ) :
    0 ≤ wsum f i j :=
  Finset.sum_nonneg fun _ _ => Finset.sum_nonneg fun _ _ => hf _ _

lemma wsum_sq_le (f : ℕ → ℕ → ℚ) (i j : ℕ) :
    wsum f i j ^ 2 ≤ 49 * wsum (fun a b => f a b * f a b) i j := by
  have hrw : ∀ g : ℕ → ℕ → ℚ, wsum g i j =
      ∑ p ∈ Finset.range 7 ×ˢ Finset.range 7, g (i + p.1) (j + p.2) := by
    intro g
    unfold wsum
    exact (Finset.sum_product' _ _ _).symm
  rw [hrw, hrw]
  have h := @sq_sum_le_card_mul_sum_sq (ℕ × ℕ) ℚ _ _
    (Finset.range 7 ×ˢ Finset.range 7) (fun p => f (i + p.1) (j + p.2))
  rw [Finset.card_product, Finset.card_range] at h
  have hc : ((7 * 7 : ℕ) : ℚ) = 49 := by norm_num
  rw [hc] at h
  calc (∑ p ∈ Finset.range 7 ×ˢ Finset.range 7, f (i + p.1) (j + p.2)) ^ 2
      ≤ 49 * ∑ p ∈ Finset.range 7 ×ˢ Finset.range 7, f (i + p.1) (j + p.2) ^ 2 := h
    _ = 49 * ∑ p ∈ Finset.range 7 ×ˢ Finset.range 7,
          f (i + p.1) (j + p.2) * f (i + p.1) (j + p.2) := by
        congr 1
        exact Finset.sum_congr rfl fun p _ => by ring

lemma ssim_core_bound (sx sy sxx syy sxy : ℚ)
    (h0x : 0 ≤ sx) (h0y : 0 ≤ sy)
    (hx2 : sx ^ 2 ≤ 49 * sxx) (hy2 : sy ^ 2 ≤ 49 * syy)
    (hplus : (sx + sy) ^ 2 ≤ 49 * (sxx + (2 * sxy + syy)))
    (hminus : (sx - sy) ^ 2 ≤ 49 * (sxx - 2 * sxy + syy)) :
    |(2 * (sx / 49) * (sy / 49) + ssimC1) *
        (2 * (49 / 48 * (sxy / 49 - sx / 49 * (sy / 49))) + ssimC2) /
      ((sx / 49 * (sx / 49) + sy / 49 * (sy / 49) + ssimC1) *
        (49 / 48 * (sxx / 49 - sx / 49 * (sx / 49)) +
          49 / 48 * (syy / 49 - sy / 49 * (sy / 49)) + ssimC2))| ≤ 1 := by
  have hC1 : (0 : ℚ) < ssimC1 := by norm_num [ssimC1]
  have hC2 : (0 : ℚ) < ssimC2 := by norm_num [ssimC2]
  have hA1pos : 0 < 2 * (sx / 49) * (sy / 49) + ssimC1 := by nlinarith
  have hA1B1 : 2 * (sx / 49) * (sy / 49) + ssimC1 ≤
      sx / 49 * (sx / 49) + sy / 49 * (sy / 49) + ssimC1 := by
    nlinarith [sq_nonneg (sx / 49 - sy / 49)]
  have hB1pos : 0 < sx / 49 * (sx / 49) + sy / 49 * (sy / 49) + ssimC1 :=
    lt_of_lt_of_le hA1pos hA1B1
  have hvx : 0 ≤ 49 / 48 * (sxx / 49 - sx / 49 * (sx / 49)) := by nlinarith
  have hvy : 0 ≤ 49 / 48 * (syy / 49 - sy / 49 * (sy / 49)) := by nlinarith
  have hB2pos : 0 < 49 / 48 * (sxx / 49 - sx / 49 * (sx / 49)) +
      49 / 48 * (syy / 49 - sy / 49 * (sy / 49)) + ssimC2 := by linarith
  have hA2le : 2 * (49 / 48 * (sxy / 49 - sx / 49 * (sy / 49))) + ssimC2 ≤
      49 / 48 * (sxx / 49 - sx / 49 * (sx / 49)) +
        49 / 48 * (syy / 49 - sy / 49 * (sy / 49)) + ssimC2 := by
    nlinarith
  have hA2ge : -(49 / 48 * (sxx / 49 - sx / 49 * (sx / 49)) +
        49 / 48 * (syy / 49 - sy / 49 * (sy / 49)) + ssimC2) ≤
      2 * (49 / 48 * (sxy / 49 - sx / 49 * (sy / 49))) + ssimC2 := by
    nlinarith
  rw [abs_div, abs_of_pos (mul_pos hB1pos hB2pos), div_le_one (mul_pos hB1pos hB2pos),
    abs_mul, abs_of_pos hA1pos]
  exact mul_le_mul hA1B1 (abs_le.mpr ⟨hA2ge, hA2le⟩) (abs_nonneg _) (le_of_lt hB1pos)

lemma ssimLocal_abs_le_one (X Y : ℕ → ℕ → ℚ) (hX : ∀ a b, 0 ≤ X a b)
    (hY : ∀ a b, 0 ≤ Y a b) (i j : ℕ) : |ssimLocal X Y i j| ≤ 1 := by
  have hplusw := wsum_sq_le (fun a b => X a b + Y a b) i j
  have hminusw := wsum_sq_le (fun a b => X a b - Y a b) i j
  rw [wsum_add] at hplusw
  rw [wsum_sub] at hminusw
  have haddsq : wsum (fun a b =>
        (fun a b => X a b + Y a b) a b * (fun a b => X a b + Y a b) a b) i j =
      wsum (fun a b => X a b * X a b) i j +
        (2 * wsum (fun a b => X a b * Y a b) i j +
          wsum (fun a b => Y a b * Y a b) i j) := by
    rw [show (fun a b => (fun a b => X a b + Y a b) a b * (fun a b => X a b + Y a b) a b) =
        fun a b => X a b * X a b + (2 * (X a b * Y a b) + Y a b * Y a b) from
      funext fun a => funext fun b => by ring]
    rw [wsum_add, wsum_add, wsum_mul_left]
  have hsubsq : wsum (fun a b =>
        (fun a b => X a b - Y a b) a b * (fun a b => X a b - Y a b) a b) i j =
      wsum (fun a b => X a b * X a b) i j -
        2 * wsum (fun a b => X a b * Y a b) i j +
        wsum (fun a b => Y a b * Y a b) i j := by
    rw [show (fun a b => (fun a b => X a b - Y a b) a b * (fun a b => X a b - Y a b) a b) =
        fun a b => (X a b * X a b - 2 * (X a b * Y a b)) + Y a b * Y a b from
      funext fun a => funext fun b => by ring]
    rw [wsum_add, wsum_sub, wsum_mul_left]
  rw [haddsq] at hplusw
  rw [hsubsq] at hminusw
  simp only [ssimLocal]
  exact ssim_core_bound (wsum X i j) (wsum Y i j)
    (wsum (fun a b => X a b * X a b) i j) (wsum (fun a b => Y a b * Y a b) i j)
    (wsum (fun a b => X a b * Y a b) i j)
    (wsum_nonneg hX i j) (wsum_nonneg hY i j)
    (wsum_sq_le X i j) (wsum_sq_le Y i j) hplusw hminusw

lemma structural_similarity_abs_le_one (X Y : GImg) (hh : 7 ≤ X.h) (hw : 7 ≤ X.w) :
    |structural_similarity X Y| ≤ 1 := by
  unfold structural_similarity
  have hcard : (0 : ℚ) < (((X.h - 6) * (X.w - 6) : ℕ) : ℚ) := by
    have h1 : 0 < (X.h - 6) * (X.w - 6) := by
      have h2 : 0 < X.h - 6 := by omega
      have h3 : 0 < X.w - 6 := by omega
      positivity
    exact_mod_cast h1
  rw [abs_div, abs_of_pos hcard, div_le_one hcard]
  calc |∑ i ∈ Finset.range (X.h - 6), ∑ j ∈ Finset.range (X.w - 6),
          ssimLocal (fun a b => ((X.px a b : ℕ) : ℚ)) (fun a b => ((Y.px a b : ℕ) : ℚ)) i j|
      ≤ ∑ i ∈ Finset.range (X.h - 6), |∑ j ∈ Finset.range (X.w - 6),
          ssimLocal (fun a b => ((X.px a b : ℕ) : ℚ)) (fun a b => ((Y.px a b : ℕ) : ℚ)) i j| :=
        Finset.abs_sum_le_sum_abs _ _
    _ ≤ ∑ i ∈ Finset.range (X.h - 6), ∑ j ∈ Finset.range (X.w - 6),
          |ssimLocal (fun a b => ((X.px a b : ℕ) : ℚ)) (fun a b => ((Y.px a b : ℕ) : ℚ)) i j| :=
        Finset.sum_le_sum fun i _ => Finset.abs_sum_le_sum_abs _ _
    _ ≤ ∑ i ∈ Finset.range (X.h - 6), ∑ j ∈ Finset.range (X.w - 6), (1 : ℚ) :=
        Finset.sum_le_sum fun i _ => Finset.sum_le_sum fun j _ =>
          ssimLocal_abs_le_one _ _ (fun a b => Nat.cast_nonneg _)
            (fun a b => Nat.cast_nonneg _) i j
    _ = (((X.h - 6) * (X.w - 6) : ℕ) : ℚ) := by
        simp [Finset.sum_const, Finset.card_range]

lemma ssimLocal_congr_right (X Y Z : ℕ → ℕ → ℚ) (i j : ℕ)
    (h : ∀ a < 7, ∀ b < 7, Y (i + a) (j + b) = Z (i + a) (j + b)) :
    ssimLocal X Y i j = ssimLocal X Z i j := by
  have h1 : wsum Y i j = wsum Z i j := wsum_window_congr i j h
  have h2 : wsum (fun a b => Y a b * Y a b) i j = wsum (fun a b => Z a b * Z a b) i j :=
    wsum_window_congr i j fun a ha b hb => by rw [h a ha b hb]
  have h3 : wsum (fun a b => X a b * Y a b) i j = wsum (fun a b => X a b * Z a b) i j :=
    wsum_window_congr i j fun a ha b hb => by rw [h a ha b hb]
  simp only [ssimLocal]
  rw [h1, h2, h3]

lemma structural_similarity_congr_right (X Y Z : GImg)
    (hp : ∀ a < X.h, ∀ b < X.w, Y.px a b = Z.px a b) :
    structural_similarity X Y = structural_similarity X Z := by
  unfold structural_similarity
  congr 1
  apply Finset.sum_congr rfl
  intro i hi
  apply Finset.sum_congr rfl
  intro j hj
  apply ssimLocal_congr_right
  intro a ha b hb
  have hia : i + a < X.h := by
    have hi2 := Finset.mem_range.mp hi
    omega
  have hjb : j + b < X.w := by
    have hj2 := Finset.mem_range.mp hj
    omega
  rw [hp (i + a) hia (j + b) hjb]

lemma gray_imgCheck (a b : ℕ) :
    (to_gray imgCheck).px a b = if (a + b) % 2 = 0 then 255 else 0 := by
  show (1868 * (imgCheck.px a b).1 + 9617 * (imgCheck.px a b).2.1 +
      4899 * (imgCheck.px a b).2.2 + 8192) / 16384 = _
  by_cases hp : (a + b) % 2 = 0 <;> norm_num [imgCheck, hp]

lemma gray_imgCheckInv (a b : ℕ) :
    (to_gray imgCheckInv).px a b = if (a + b) % 2 = 0 then 0 else 255 := by
  show (1868 * (imgCheckInv.px a b).1 + 9617 * (imgCheckInv.px a b).2.1 +
      4899 * (imgCheckInv.px a b).2.2 + 8192) / 16384 = _
  by_cases hp : (a + b) % 2 = 0 <;> norm_num [imgCheckInv, hp]

lemma ssim_check_neg :
    structural_similarity (to_gray imgCheckInv) (to_gray imgCheck) < 0 := by
  have hSx : wsum (fun a b => (((to_gray imgCheckInv).px a b : ℕ) : ℚ)) 0 0 = 6120 := by
    simp only [wsum, Finset.sum_range_succ, Finset.sum_range_zero, gray_imgCheckInv]
    norm_num
  have hSy : wsum (fun a b => (((to_gray imgCheck).px a b : ℕ) : ℚ)) 0 0 = 6375 := by
    simp only [wsum, Finset.sum_range_succ, Finset.sum_range_zero, gray_imgCheck]
    norm_num
  have hSxx : wsum (fun a b => (((to_gray imgCheckInv).px a b : ℕ) : ℚ) *
      (((to_gray imgCheckInv).px a b : ℕ) : ℚ)) 0 0 = 1560600 := by
    simp only [wsum, Finset.sum_range_succ, Finset.sum_range_zero, gray_imgCheckInv]
    norm_num
  have hSyy : wsum (fun a b => (((to_gray imgCheck).px a b : ℕ) : ℚ) *
      (((to_gray imgCheck).px a b : ℕ) : ℚ)) 0 0 = 1625625 := by
    simp only [wsum, Finset.sum_range_succ, Finset.sum_range_zero, gray_imgCheck]
    norm_num
  have hSxy : wsum (fun a b => (((to_gray imgCheckInv).px a b : ℕ) : ℚ) *
      (((to_gray imgCheck).px a b : ℕ) : ℚ)) 0 0 = 0 := by
    simp only [wsum, Finset.sum_range_succ, Finset.sum_range_zero, gray_imgCheckInv,
      gray_imgCheck]
    norm_num
  show (∑ i ∈ Finset.range (7 - 6), ∑ j ∈ Finset.range (7 - 6),
      ssimLocal (fun a b => (((to_gray imgCheckInv).px a b : ℕ) : ℚ))
        (fun a b => (((to_gray imgCheck).px a b : ℕ) : ℚ)) i j) /
    (((7 - 6) * (7 - 6) : ℕ) : ℚ) < 0
  rw [show (7 - 6 : ℕ) = 1 from rfl]
  rw [Finset.sum_range_one, Finset.sum_range_one]
  simp only [ssimLocal]
  rw [hSx, hSy, hSxx, hSyy, hSxy]
  norm_num [ssimC1, ssimC2]

lemma cmp_orb_orbPrims8 (ref scr : Img) : cmp_orb orbPrims8 ref scr = (1, 8, 8) := by
  have hdec : (fun mn : DM × DM =>
      decide (mn.1.distance < 3 / 4 * mn.2.distance)) (⟨0, 0, 0⟩, ⟨1, 0, 0⟩) = true := by
    simp only [decide_eq_true_eq]
    norm_num
  simp only [cmp_orb, orbPrims8, List.length_replicate, List.filter_replicate, hdec,
    if_true, List.map_replicate, List.count_replicate]
  norm_num

/-! Claim theorems. -/

/-- C1: for every pair of input images (and any library primitives and
thresholds), the aggregator's candidate pool is the passed results if
any result passed, otherwise all results, and `best` — the head of the
pool sorted by the source's key `(-score, order[method])` — coincides
with sorting the pool by score descending with ties broken by the fixed
priority order StructuralSimilarity > Exact > TemplateLocalization >
FeatureGeometric > PerceptualHash, exactly as the spec states. -/
theorem C1_aggregator_pool_and_priority (t : Thresh) (hashFn : Img → Hash64)
    (matchFn : Img → Img → ℚ × ℕ × ℕ) (P : OrbPrims) (ref scr : Img) :
    candidatePool (engineResults t hashFn matchFn P ref scr) =
      (if (engineResults t hashFn matchFn P ref scr).filter (·.passed) = []
        then engineResults t hashFn matchFn P ref scr
        else (engineResults t hashFn matchFn P ref scr).filter (·.passed)) ∧
    pickBest (engineResults t hashFn matchFn P ref scr) =
      specBest (engineResults t hashFn matchFn P ref scr) :=
  ⟨candidatePool_eq _, pickBest_eq_specBest _⟩

/-- C2 counterexample: a failure raised inside a single comparator (here
the structural-similarity call, the second in `main`'s sequence) aborts
the whole invocation — `main` has no try/except around any comparator —
so no Summary is produced at all, refuting the claim that the faulting
method would be converted to a score-0 entry while the Summary keeps one
result per method. -/
theorem C2_counterexample :
    mainE THRESHOLDS (Except.ok (true, 1)) (Except.error "boom") (Except.ok 1)
        (Except.ok (1, (0, 0), (0, 0))) (Except.ok (1, 0, 0)) =
      Except.error "boom" ∧
    ¬ ∃ s : Summary,
        mainE THRESHOLDS (Except.ok (true, 1)) (Except.error "boom") (Except.ok 1)
            (Except.ok (1, (0, 0), (0, 0))) (Except.ok (1, 0, 0)) = Except.ok s := by
  refine ⟨rfl, ?_⟩
  rintro ⟨s, hs⟩
  exact Except.noConfusion ((rfl : mainE THRESHOLDS (Except.ok (true, 1))
    (Except.error "boom") (Except.ok 1) (Except.ok (1, (0, 0), (0, 0)))
    (Except.ok (1, 0, 0)) = Except.error "boom") ▸ hs)

/-- C2 (amended): a failure raised inside any single comparator
propagates and aborts the whole invocation — the first error in the call
order exact, ssim, phash, template, orb becomes the result and no
Summary is produced; only when all five comparators succeed is a Summary
returned, and that Summary contains exactly one ComparisonResult per
method. -/
theorem C2_fault_aborts_run (t : Thresh) (msg : String)
    (exv : Bool × ℚ) (ssv phv : ℚ) (tmv : ℚ × (ℕ × ℕ) × (ℕ × ℕ))
    (orbv : ℚ × ℕ × ℕ) (e2 : Except String ℚ) (e3 : Except String ℚ)
    (e4 : Except String (ℚ × (ℕ × ℕ) × (ℕ × ℕ)))
    (e5 : Except String (ℚ × ℕ × ℕ)) :
    mainE t (Except.error msg) e2 e3 e4 e5 = Except.error msg ∧
    mainE t (Except.ok exv) (Except.error msg) e3 e4 e5 = Except.error msg ∧
    mainE t (Except.ok exv) (Except.ok ssv) (Except.error msg) e4 e5 =
      Except.error msg ∧
    mainE t (Except.ok exv) (Except.ok ssv) (Except.ok phv) (Except.error msg) e5 =
      Except.error msg ∧
    mainE t (Except.ok exv) (Except.ok ssv) (Except.ok phv) (Except.ok tmv)
        (Except.error msg) = Except.error msg ∧
    mainE t (Except.ok exv) (Except.ok ssv) (Except.ok phv) (Except.ok tmv)
        (Except.ok orbv) =
      Except.ok (buildSummary t (mkResults t exv ssv phv tmv.1 orbv)) ∧
    ∀ m : Method,
      ((mkResults t exv ssv phv tmv.1 orbv).filter (fun r => r.method == m)).length
        = 1 := by
  refine ⟨rfl, rfl, rfl, rfl, rfl, rfl, ?_⟩
  intro m
  cases m <;> rfl

/-- C4: the comparison engine is deterministic: given the same two
images, the same thresholds and the same (pure) library primitives, any
two summaries an invocation of `main` can produce — even allowing the
sort-and-pick step to resolve ties in an arbitrary order — are equal. -/
theorem C4_deterministic_summary (t : Thresh) (hashFn : Img → Hash64)
    (matchFn : Img → Img → ℚ × ℕ × ℕ) (P : OrbPrims) (ref scr : Img)
    {s1 s2 : Summary}
    (h1 : ProducesSummary t hashFn matchFn P ref scr s1)
    (h2 : ProducesSummary t hashFn matchFn P ref scr s2) : s1 = s2 := by
  obtain ⟨hpm1, hb1, ht1⟩ := h1
  obtain ⟨hpm2, hb2, ht2⟩ := h2
  have hb : s1.best = s2.best :=
    validBest_unique (engine_methods_nodup t hashFn matchFn P ref scr) hb1 hb2
  cases s1
  cases s2
  simp_all

/-- Witness for C4: a concrete invocation (identical one-pixel images,
trivial primitives) produces a summary, and the theorem applied to it
twice yields its equality with itself. -/
theorem C4_witness :
    ProducesSummary THRESHOLDS hash0 match0 orbPrims0 img1 img1
        ⟨engineResults THRESHOLDS hash0 match0 orbPrims0 img1 img1,
         ⟨Method.exact, 1, true⟩, THRESHOLDS⟩ ∧
    (⟨engineResults THRESHOLDS hash0 match0 orbPrims0 img1 img1,
      ⟨Method.exact, 1, true⟩, THRESHOLDS⟩ : Summary) =
      ⟨engineResults THRESHOLDS hash0 match0 orbPrims0 img1 img1,
       ⟨Method.exact, 1, true⟩, THRESHOLDS⟩ := by
  have hex : cmp_exact_after_resize img1 img1 = (true, 1) :=
    cmp_exact_eq_of (cvResizeArea_self img1)
  have hss : cmp_ssim_after_resize img1 img1 = 0 :=
    cmp_ssim_small img1 img1 (Or.inl (by norm_num [img1]))
  have hph : cmp_phash hash0 img1 img1 = 1 := by
    unfold cmp_phash
    rw [show hammingDist (hash0 img1) (hash0 img1) = 0 from rfl]
    norm_num
  have htm : (cmp_template match0 img1 img1).1 = 0 := rfl
  have horb : cmp_orb orbPrims0 img1 img1 = (0, 0, 0) := rfl
  have hR : engineResults THRESHOLDS hash0 match0 orbPrims0 img1 img1 =
      [⟨Method.exact, 1, true⟩, ⟨Method.resize_ssim, 0, false⟩,
       ⟨Method.phash, 1, true⟩, ⟨Method.template, 0, false⟩,
       ⟨Method.orb, 0, false⟩] := by
    unfold engineResults
    rw [hex, hss, hph, htm, horb]
    norm_num [mkResults, THRESHOLDS]
  have hpool : candidatePool (engineResults THRESHOLDS hash0 match0 orbPrims0 img1 img1) =
      [⟨Method.exact, 1, true⟩, ⟨Method.phash, 1, true⟩] := by
    rw [hR]
    rfl
  have hkey : keyLe ⟨Method.exact, 1, true⟩ ⟨Method.phash, 1, true⟩ = true := by
    simp [keyLe, methodOrder]
  have hvb : ValidBest (engineResults THRESHOLDS hash0 match0 orbPrims0 img1 img1)
      ⟨Method.exact, 1, true⟩ := by
    refine ⟨[⟨Method.exact, 1, true⟩, ⟨Method.phash, 1, true⟩], ?_, ?_, rfl⟩
    · rw [hpool]
    · exact List.pairwise_cons.mpr ⟨by simpa using hkey, List.pairwise_singleton _ _⟩
  have hprod : ProducesSummary THRESHOLDS hash0 match0 orbPrims0 img1 img1
      ⟨engineResults THRESHOLDS hash0 match0 orbPrims0 img1 img1,
       ⟨Method.exact, 1, true⟩, THRESHOLDS⟩ := ⟨rfl, hvb, rfl⟩
  exact ⟨hprod,
    C4_deterministic_summary THRESHOLDS hash0 match0 orbPrims0 img1 img1 hprod hprod⟩

/-- C9: for every pair of input images (and any primitives and
thresholds), `best` is populated and is one of the entries of
`per_method`; in particular when no comparator passes, the pool is the
full result list and the selected `best` has `passed = false`. -/
theorem C9_best_in_per_method (t : Thresh) (hashFn : Img → Hash64)
    (matchFn : Img → Img → ℚ × ℕ × ℕ) (P : OrbPrims) (ref scr : Img) :
    ∃ b : CR, pickBest (engineResults t hashFn matchFn P ref scr) = some b ∧
      b ∈ engineResults t hashFn matchFn P ref scr ∧
      ((∀ r ∈ engineResults t hashFn matchFn P ref scr, r.passed = false) →
        candidatePool (engineResults t hashFn matchFn P ref scr) =
          engineResults t hashFn matchFn P ref scr ∧ b.passed = false) := by
  have hRne : engineResults t hashFn matchFn P ref scr ≠ [] := by
    simp [engineResults, mkResults]
  have hpoolne : candidatePool (engineResults t hashFn matchFn P ref scr) ≠ [] := by
    rw [candidatePool_eq]
    rcases eq_or_ne ((engineResults t hashFn matchFn P ref scr).filter (·.passed)) []
      with hf | hf
    · rw [if_pos hf]; exact hRne
    · rw [if_neg hf]; exact hf
  have hmsne :
      (candidatePool (engineResults t hashFn matchFn P ref scr)).mergeSort keyLe
        ≠ [] := by
    intro h
    have hperm :=
      List.mergeSort_perm (candidatePool (engineResults t hashFn matchFn P ref scr)) keyLe
    rw [h] at hperm
    exact hpoolne hperm.nil_eq.symm
  obtain ⟨b, l', hbl⟩ := List.exists_cons_of_ne_nil hmsne
  have hbpool : b ∈ candidatePool (engineResults t hashFn matchFn P ref scr) := by
    apply (List.mergeSort_perm _ keyLe).mem_iff.mp
    rw [hbl]
    exact List.mem_cons_self _ _
  have hbR : b ∈ engineResults t hashFn matchFn P ref scr :=
    candidatePool_subset b hbpool
  refine ⟨b, ?_, hbR, ?_⟩
  · unfold pickBest
    rw [hbl]
    rfl
  · intro hfail
    have hf : (engineResults t hashFn matchFn P ref scr).filter (·.passed) = [] := by
      apply List.filter_eq_nil_iff.mpr
      intro a ha
      simp [hfail a ha]
    exact ⟨by rw [candidatePool_eq, if_pos hf], hfail b hbR⟩

/-- Witness for C9: with concrete images and primitives making all five
comparators fail, the theorem still yields a populated best with
`passed = false`. -/
theorem C9_witness :
    (∀ r ∈ engineResults THRESHOLDS hashA match0 orbPrims0 img1 img7,
        r.passed = false) ∧
    (∃ b : CR, pickBest (engineResults THRESHOLDS hashA match0 orbPrims0 img1 img7)
          = some b ∧
        b ∈ engineResults THRESHOLDS hashA match0 orbPrims0 img1 img7 ∧
        ((∀ r ∈ engineResults THRESHOLDS hashA match0 orbPrims0 img1 img7,
            r.passed = false) →
          candidatePool (engineResults THRESHOLDS hashA match0 orbPrims0 img1 img7) =
            engineResults THRESHOLDS hashA match0 orbPrims0 img1 img7 ∧
          b.passed = false)) := by
  have hex : cmp_exact_after_resize img1 img7 = (false, 0) := by
    apply cmp_exact_eq_of_not
    intro hcontra
    have h17 : arrayEqual img1 img7 :=
      arrayEqual_trans (arrayEqual_symm (cvResizeArea_self img1)) hcontra
    have : ¬ arrayEqual img1 img7 := by decide
    exact this h17
  have hss : cmp_ssim_after_resize img1 img7 = 0 :=
    cmp_ssim_small img1 img7 (Or.inl (by norm_num [img7]))
  have hph : cmp_phash hashA img1 img7 = 0 := by
    unfold cmp_phash
    rw [show hammingDist (hashA img1) (hashA img7) = 64 from rfl]
    norm_num
  have htm : (cmp_template match0 img1 img7).1 = 0 := rfl
  have horb : cmp_orb orbPrims0 img1 img7 = (0, 0, 0) := rfl
  have hR : engineResults THRESHOLDS hashA match0 orbPrims0 img1 img7 =
      [⟨Method.exact, 0, false⟩, ⟨Method.resize_ssim, 0, false⟩,
       ⟨Method.phash, 0, false⟩, ⟨Method.template, 0, false⟩,
       ⟨Method.orb, 0, false⟩] := by
    unfold engineResults
    rw [hex, hss, hph, htm, horb]
    norm_num [mkResults, THRESHOLDS]
  refine ⟨?_, C9_best_in_per_method THRESHOLDS hashA match0 orbPrims0 img1 img7⟩
  intro r hr
  rw [hR] at hr
  simp only [List.mem_cons, List.not_mem_nil, or_false] at hr
  rcases hr with rfl | rfl | rfl | rfl | rfl <;> rfl

/-- C7: for every pair of pixel-for-pixel identical images the
exact-match comparator returns passed true and score 1.0; in general the
score is binary — 1.0 exactly when the reference, after resizing to the
candidate's dimensions, equals the candidate elementwise, else 0.0 —
and the passed flag is that very equality. -/
theorem C7_exact_binary (ref scr : Img) :
    (arrayEqual ref scr → cmp_exact_after_resize ref scr = (true, 1)) ∧
    ((cmp_exact_after_resize ref scr).2 = 1 ↔
      arrayEqual (cvResizeArea ref scr.w scr.h) scr) ∧
    ((cmp_exact_after_resize ref scr).1 = true ↔
      arrayEqual (cvResizeArea ref scr.w scr.h) scr) ∧
    ((cmp_exact_after_resize ref scr).2 = 1 ∨
      (cmp_exact_after_resize ref scr).2 = 0) := by
  by_cases h : arrayEqual (cvResizeArea ref scr.w scr.h) scr
  · rw [cmp_exact_eq_of h]
    exact ⟨fun _ => rfl, by simpa using h, by simpa using h, Or.inl rfl⟩
  · rw [cmp_exact_eq_of_not h]
    refine ⟨?_, ?_, ?_, Or.inr rfl⟩
    · intro hid
      exfalso
      apply h
      have hw : scr.w = ref.w := hid.2.1.symm
      have hh : scr.h = ref.h := hid.1.symm
      rw [hw, hh]
      exact arrayEqual_trans (cvResizeArea_self ref) hid
    · constructor
      · intro h01
        exact absurd h01 (by norm_num)
      · intro hE
        exact absurd hE h
    · constructor
      · intro h01
        exact absurd h01 (by simp)
      · intro hE
        exact absurd hE h

/-- Witness for C7: a concrete identical pair on which the comparator
reports passed with score 1. -/
theorem C7_witness :
    arrayEqual img7 img7 ∧ cmp_exact_after_resize img7 img7 = (true, 1) :=
  ⟨by decide, (C7_exact_binary img7 img7).1 (by decide)⟩

/-- C10: there is a pair of input images that is not pixel-for-pixel
identical — the reference even has different dimensions from the
candidate — on which the exact-match comparator reports passed true with
score 1.0, because equality is only checked after the reference is
area-averaged to the candidate's resolution (here a constant 2×2
reference averages exactly onto a constant 1×1 candidate). -/
theorem C10_exact_passes_after_downscale :
    ∃ ref scr : Img, ref.h ≠ scr.h ∧ ref.w ≠ scr.w ∧ ¬ arrayEqual ref scr ∧
      cmp_exact_after_resize ref scr = (true, 1) := by
  refine ⟨⟨2, 2, fun _ _ => (5, 5, 5)⟩, ⟨1, 1, fun _ _ => (5, 5, 5)⟩,
    by decide, by decide, by decide, ?_⟩
  apply cmp_exact_eq_of
  have haw0 : areaWeight 2 1 0 0 = 1 := by
    norm_num [areaWeight, min_def, max_def]
  have haw1 : areaWeight 2 1 0 1 = 1 := by
    norm_num [areaWeight, min_def, max_def]
  have hch : resizeChan (fun _ _ => 5) 2 2 1 1 0 0 = ((5 : ℕ) : ℚ) := by
    simp [resizeChan, Finset.sum_range_succ, haw0, haw1]
    norm_num
  have h5 : qround (resizeChan (fun _ _ => 5) 2 2 1 1 0 0) = 5 := by
    rw [hch, qround_natCast]
  refine ⟨rfl, rfl, ?_⟩
  intro i hi j hj
  have hi1 : i < 1 := hi
  have hj1 : j < 1 := hj
  have hi0 : i = 0 := by omega
  have hj0 : j = 0 := by omega
  subst hi0
  subst hj0
  show (qround (resizeChan (fun _ _ => 5) 2 2 1 1 0 0),
        qround (resizeChan (fun _ _ => 5) 2 2 1 1 0 0),
        qround (resizeChan (fun _ _ => 5) 2 2 1 1 0 0)) = (5, 5, 5)
  rw [h5]

/-- C6: whenever either image yields no descriptors or fewer than 10
keypoints, the feature-geometric comparator short-circuits with score
0.0, zero inliers and zero good matches (and, being a total function of
its inputs, cannot raise). -/
theorem C6_orb_degenerate (P : OrbPrims) (ref scr : Img)
    (h : (P.detect (to_gray ref)).2 = none ∨ (P.detect (to_gray scr)).2 = none ∨
      (P.detect (to_gray ref)).1.length < 10 ∨
      (P.detect (to_gray scr)).1.length < 10) :
    cmp_orb P ref scr = (0, 0, 0) := by
  simp only [cmp_orb]
  split
  · next des1 des2 heq1 heq2 =>
    rw [if_pos]
    rcases h with h | h | h | h
    · rw [h] at heq1; cases heq1
    · rw [h] at heq2; cases heq2
    · exact Or.inl h
    · exact Or.inr h
  · rfl

/-- Witness for C6: the degenerate detector yields no descriptors, and
the comparator returns the zero triple. -/
theorem C6_witness :
    ((orbPrims0.detect (to_gray img1)).2 = none ∨
      (orbPrims0.detect (to_gray img1)).2 = none ∨
      (orbPrims0.detect (to_gray img1)).1.length < 10 ∨
      (orbPrims0.detect (to_gray img1)).1.length < 10) ∧
    cmp_orb orbPrims0 img1 img1 = (0, 0, 0) :=
  ⟨Or.inl rfl, C6_orb_degenerate orbPrims0 img1 img1 (Or.inl rfl)⟩

/-- C5: with the default thresholds, the feature-geometric entry of the
per-method results has the comparator's score and passes exactly when
score ≥ 0.35 and inlier count ≥ 12; in particular a score above the
ratio threshold with fewer than 12 inliers does not pass. -/
theorem C5_orb_pass_rule (hashFn : Img → Hash64)
    (matchFn : Img → Img → ℚ × ℕ × ℕ) (P : OrbPrims) (ref scr : Img) :
    (∃ e ∈ engineResults THRESHOLDS hashFn matchFn P ref scr,
      e.method = Method.orb ∧ e.score = (cmp_orb P ref scr).1 ∧
      (e.passed = true ↔
        (7 / 20 : ℚ) ≤ (cmp_orb P ref scr).1 ∧ 12 ≤ (cmp_orb P ref scr).2.1)) ∧
    (∀ e ∈ engineResults THRESHOLDS hashFn matchFn P ref scr,
      e.method = Method.orb →
      (7 / 20 : ℚ) ≤ (cmp_orb P ref scr).1 → (cmp_orb P ref scr).2.1 < 12 →
      e.passed = false) := by
  constructor
  · refine ⟨⟨Method.orb, (cmp_orb P ref scr).1,
      decide ((7 / 20 : ℚ) ≤ (cmp_orb P ref scr).1) &&
        decide (12 ≤ (cmp_orb P ref scr).2.1)⟩, ?_, rfl, rfl, ?_⟩
    · show _ ∈ mkResults THRESHOLDS _ _ _ _ _
      unfold mkResults THRESHOLDS
      simp
    · simp
  · intro e he hm h35 h12
    have hR : engineResults THRESHOLDS hashFn matchFn P ref scr =
        mkResults THRESHOLDS (cmp_exact_after_resize ref scr)
          (cmp_ssim_after_resize ref scr) (cmp_phash hashFn ref scr)
          (cmp_template matchFn ref scr).1 (cmp_orb P ref scr) := rfl
    rw [hR] at he
    unfold mkResults at he
    simp only [List.mem_cons, List.not_mem_nil, or_false] at he
    rcases he with rfl | rfl | rfl | rfl | rfl
    · cases hm
    · cases hm
    · cases hm
    · cases hm
    · show (decide _ && decide _) = false
      have : ¬ (THRESHOLDS.orbMinInliers ≤ (cmp_orb P ref scr).2.1) := by
        show ¬ (12 ≤ _)
        omega
      rw [decide_eq_false this, Bool.and_false]

/-- Witness for C5: a concrete instantiation where the feature-geometric
score is 1 (above the 0.35 ratio threshold) but only 8 inliers exist
(below the minimum of 12), and the method does not pass. -/
theorem C5_witness :
    (7 / 20 : ℚ) ≤ (cmp_orb orbPrims8 img1 img7).1 ∧
    (cmp_orb orbPrims8 img1 img7).2.1 < 12 ∧
    ∀ e ∈ engineResults THRESHOLDS hash0 match0 orbPrims8 img1 img7,
      e.method = Method.orb → e.passed = false := by
  have h8 : cmp_orb orbPrims8 img1 img7 = (1, 8, 8) := cmp_orb_orbPrims8 img1 img7
  refine ⟨by rw [h8]; norm_num, by rw [h8]; norm_num, ?_⟩
  intro e he hm
  exact (C5_orb_pass_rule hash0 match0 orbPrims8 img1 img7).2 e he hm
    (by rw [h8]; norm_num) (by rw [h8]; norm_num)

/-- C8: for nondegenerate image dimensions, the template comparator
downscales the reference aspect-preservingly — both output dimensions
are floors of the original dimensions multiplied by one common scale
factor strictly between 0 and 1 — so that it fits inside the candidate,
exactly when the reference is wider or taller than the candidate (it is
used unchanged otherwise), and the reported bounding box satisfies
bottom_right = top_left + (post-resize reference dimensions). -/
theorem C8_template_fit_and_bbox (matchFn : Img → Img → ℚ × ℕ × ℕ)
    (ref scr : Img) (hrw : 0 < ref.w) (hrh : 0 < ref.h)
    (hsw : 0 < scr.w) (hsh : 0 < scr.h) :
    ((ref.w ≤ scr.w ∧ ref.h ≤ scr.h) → templateRef ref scr = ref) ∧
    ((scr.w < ref.w ∨ scr.h < ref.h) →
      templateRef ref scr = resize_keep_aspect ref scr.w scr.h ∧
      (templateRef ref scr).w ≤ scr.w ∧ (templateRef ref scr).h ≤ scr.h ∧
      ∃ s : ℚ, 0 < s ∧ s < 1 ∧
        (templateRef ref scr).w = (ratFloor ((ref.w : ℚ) * s)).toNat ∧
        (templateRef ref scr).h = (ratFloor ((ref.h : ℚ) * s)).toNat) ∧
    (cmp_template matchFn ref scr).2.2 =
      ((cmp_template matchFn ref scr).2.1.1 + (templateRef ref scr).w,
       (cmp_template matchFn ref scr).2.1.2 + (templateRef ref scr).h) := by
  have hrw' : (0 : ℚ) < ref.w := by exact_mod_cast hrw
  have hrh' : (0 : ℚ) < ref.h := by exact_mod_cast hrh
  have hsw' : (0 : ℚ) < scr.w := by exact_mod_cast hsw
  have hsh' : (0 : ℚ) < scr.h := by exact_mod_cast hsh
  refine ⟨?_, ?_, rfl⟩
  · intro h
    unfold templateRef
    rw [if_neg (by omega)]
  · intro hcond
    have hTR : templateRef ref scr = resize_keep_aspect ref scr.w scr.h := by
      unfold templateRef
      rw [if_pos hcond]
    have hsc1 : min ((scr.w : ℚ) / ref.w) ((scr.h : ℚ) / ref.h) < 1 := by
      rcases hcond with h | h
      · exact lt_of_le_of_lt (min_le_left _ _)
          ((div_lt_one hrw').mpr (by exact_mod_cast h))
      · exact lt_of_le_of_lt (min_le_right _ _)
          ((div_lt_one hrh').mpr (by exact_mod_cast h))
    have hsc0 : 0 < min ((scr.w : ℚ) / ref.w) ((scr.h : ℚ) / ref.h) :=
      lt_min (div_pos hsw' hrw') (div_pos hsh' hrh')
    have hRKA : resize_keep_aspect ref scr.w scr.h =
        cvResizeArea ref
          (ratFloor ((ref.w : ℚ) * min ((scr.w : ℚ) / ref.w) ((scr.h : ℚ) / ref.h))).toNat
          (ratFloor ((ref.h : ℚ) * min ((scr.w : ℚ) / ref.w) ((scr.h : ℚ) / ref.h))).toNat := by
      simp only [resize_keep_aspect]
      rw [if_neg (not_le.mpr hsc1)]
    have hfitw : (ratFloor ((ref.w : ℚ) *
        min ((scr.w : ℚ) / ref.w) ((scr.h : ℚ) / ref.h))).toNat ≤ scr.w := by
      rw [Int.toNat_le, ratFloor_eq]
      have hmul : (ref.w : ℚ) * min ((scr.w : ℚ) / ref.w) ((scr.h : ℚ) / ref.h) ≤ scr.w := by
        calc (ref.w : ℚ) * min ((scr.w : ℚ) / ref.w) ((scr.h : ℚ) / ref.h)
            ≤ (ref.w : ℚ) * ((scr.w : ℚ) / ref.w) :=
              mul_le_mul_of_nonneg_left (min_le_left _ _) (le_of_lt hrw')
          _ = scr.w := by field_simp
      calc ⌊(ref.w : ℚ) * min ((scr.w : ℚ) / ref.w) ((scr.h : ℚ) / ref.h)⌋
          ≤ ⌊(scr.w : ℚ)⌋ := Int.floor_le_floor hmul
        _ = (scr.w : ℤ) := Int.floor_natCast _
    have hfith : (ratFloor ((ref.h : ℚ) *
        min ((scr.w : ℚ) / ref.w) ((scr.h : ℚ) / ref.h))).toNat ≤ scr.h := by
      rw [Int.toNat_le, ratFloor_eq]
      have hmul : (ref.h : ℚ) * min ((scr.w : ℚ) / ref.w) ((scr.h : ℚ) / ref.h) ≤ scr.h := by
        calc (ref.h : ℚ) * min ((scr.w : ℚ) / ref.w) ((scr.h : ℚ) / ref.h)
            ≤ (ref.h : ℚ) * ((scr.h : ℚ) / ref.h) :=
              mul_le_mul_of_nonneg_left (min_le_right _ _) (le_of_lt hrh')
          _ = scr.h := by field_simp
      calc ⌊(ref.h : ℚ) * min ((scr.w : ℚ) / ref.w) ((scr.h : ℚ) / ref.h)⌋
          ≤ ⌊(scr.h : ℚ)⌋ := Int.floor_le_floor hmul
        _ = (scr.h : ℤ) := Int.floor_natCast _
    refine ⟨hTR, ?_, ?_, ⟨min ((scr.w : ℚ) / ref.w) ((scr.h : ℚ) / ref.h),
      hsc0, hsc1, ?_, ?_⟩⟩
    · rw [hTR, hRKA]
      exact hfitw
    · rw [hTR, hRKA]
      exact hfith
    · rw [hTR, hRKA]
      rfl
    · rw [hTR, hRKA]
      rfl

/-- Witness for C8: a 7×7 reference against a 1×1 candidate is larger in
both dimensions, is downscaled to fit, and the bounding box identity
holds. -/
theorem C8_witness :
    0 < imgCheck.w ∧ 0 < imgCheck.h ∧ 0 < img7.w ∧ 0 < img7.h ∧
    (img7.w < imgCheck.w ∨ img7.h < imgCheck.h) ∧
    (templateRef imgCheck img7 = resize_keep_aspect imgCheck img7.w img7.h ∧
      (templateRef imgCheck img7).w ≤ img7.w ∧
      (templateRef imgCheck img7).h ≤ img7.h ∧
      ∃ s : ℚ, 0 < s ∧ s < 1 ∧
        (templateRef imgCheck img7).w = (ratFloor ((imgCheck.w : ℚ) * s)).toNat ∧
        (templateRef imgCheck img7).h = (ratFloor ((imgCheck.h : ℚ) * s)).toNat) ∧
    (cmp_template match0 imgCheck img7).2.2 =
      ((cmp_template match0 imgCheck img7).2.1.1 + (templateRef imgCheck img7).w,
       (cmp_template match0 imgCheck img7).2.1.2 + (templateRef imgCheck img7).h) := by
  refine ⟨by decide, by decide, by decide, by decide, Or.inl (by decide), ?_, ?_⟩
  · exact (C8_template_fit_and_bbox match0 imgCheck img7 (by decide) (by decide)
      (by decide) (by decide)).2.1 (Or.inl (by decide))
  · exact (C8_template_fit_and_bbox match0 imgCheck img7 (by decide) (by decide)
      (by decide) (by decide)).2.2

/-- C3 counterexample: on the 7×7 checkerboard and its photometric
inverse, the structural-similarity comparator returns a strictly
negative score — the source passes skimage's raw index through with no
clamping — so not every method's score lies in [0, 1]. -/
theorem C3_counterexample : cmp_ssim_after_resize imgCheck imgCheckInv < 0 := by
  have hre : arrayEqual (cvResizeArea imgCheck imgCheckInv.w imgCheckInv.h) imgCheck :=
    cvResizeArea_self imgCheck
  have hcongr : structural_similarity (to_gray imgCheckInv)
      (to_gray (cvResizeArea imgCheck imgCheckInv.w imgCheckInv.h)) =
      structural_similarity (to_gray imgCheckInv) (to_gray imgCheck) := by
    apply structural_similarity_congr_right
    intro a ha b hb
    show (1868 * ((cvResizeArea imgCheck imgCheckInv.w imgCheckInv.h).px a b).1 +
        9617 * ((cvResizeArea imgCheck imgCheckInv.w imgCheckInv.h).px a b).2.1 +
        4899 * ((cvResizeArea imgCheck imgCheckInv.w imgCheckInv.h).px a b).2.2 +
        8192) / 16384 =
      (1868 * (imgCheck.px a b).1 + 9617 * (imgCheck.px a b).2.1 +
        4899 * (imgCheck.px a b).2.2 + 8192) / 16384
    rw [hre.2.2 a ha b hb]
  show structural_similarity (to_gray imgCheckInv)
    (to_gray (cvResizeArea imgCheck imgCheckInv.w imgCheckInv.h)) < 0
  rw [hcongr]
  exact ssim_check_neg

/-- C3 (amended): the Exact, PerceptualHash and FeatureGeometric scores
always lie in [0, 1] (the feature-geometric one under the OpenCV
contract that the RANSAC inlier mask has one entry per input point); the
StructuralSimilarity score is only guaranteed to lie in the correlation
range [-1, 1] — it is passed through unclamped and can be negative, as
can the template correlation maximum. -/
theorem C3_score_ranges (hashFn : Img → Hash64) (P : OrbPrims) (ref scr : Img) :
    ((cmp_exact_after_resize ref scr).2 = 0 ∨ (cmp_exact_after_resize ref scr).2 = 1) ∧
    (0 ≤ cmp_phash hashFn ref scr ∧ cmp_phash hashFn ref scr ≤ 1) ∧
    ((∀ src dst m, P.homography src dst = some m → m.length = src.length) →
      0 ≤ (cmp_orb P ref scr).1 ∧ (cmp_orb P ref scr).1 ≤ 1) ∧
    (7 ≤ scr.h → 7 ≤ scr.w →
      -1 ≤ cmp_ssim_after_resize ref scr ∧ cmp_ssim_after_resize ref scr ≤ 1) := by
  refine ⟨?_, ?_, ?_, ?_⟩
  · by_cases h : arrayEqual (cvResizeArea ref scr.w scr.h) scr
    · right
      rw [cmp_exact_eq_of h]
    · left
      rw [cmp_exact_eq_of_not h]
  · have hd : hammingDist (hashFn ref) (hashFn scr) ≤ 64 := by
      unfold hammingDist
      calc (Finset.univ.filter fun i => hashFn ref i ≠ hashFn scr i).card
          ≤ Finset.univ.card := Finset.card_filter_le _ _
        _ = 64 := by simp
    have hdq : ((hammingDist (hashFn ref) (hashFn scr) : ℕ) : ℚ) ≤ 64 := by
      exact_mod_cast hd
    have hd0 : (0 : ℚ) ≤ ((hammingDist (hashFn ref) (hashFn scr) : ℕ) : ℚ) :=
      Nat.cast_nonneg _
    unfold cmp_phash
    constructor
    · nlinarith
    · nlinarith
  · intro hma
    simp only [cmp_orb]
    split
    · split
      · norm_num
      · split
        · norm_num
        · split
          · norm_num
          · next mask heq =>
            have hlen := hma _ _ _ heq
            rw [List.length_map] at hlen
            have hcnt : mask.count true ≤ mask.length := List.count_le_length _ _
            constructor
            · exact div_nonneg (Nat.cast_nonneg _) (Nat.cast_nonneg _)
            · rw [div_le_one]
              · exact Nat.cast_le.mpr (by omega)
              · exact Nat.cast_pos.mpr (by omega)
    · norm_num
  · intro h7h h7w
    have hb := structural_similarity_abs_le_one (to_gray scr)
      (to_gray (cvResizeArea ref scr.w scr.h)) h7h h7w
    have hb2 := abs_le.mp hb
    exact ⟨hb2.1, hb2.2⟩

/-- Witness for C3 (amended): concrete primitives satisfy the mask
contract (trivially, no homography is ever produced) and the 7×7
checkerboard satisfies the size bound, so the feature-geometric score is
in [0, 1] and the structural-similarity score in [-1, 1]. -/
theorem C3_witness :
    (∀ src dst m, orbPrims0.homography src dst = some m → m.length = src.length) ∧
    7 ≤ imgCheck.h ∧ 7 ≤ imgCheck.w ∧
    (0 ≤ (cmp_orb orbPrims0 imgCheck imgCheck).1 ∧
      (cmp_orb orbPrims0 imgCheck imgCheck).1 ≤ 1) ∧
    (-1 ≤ cmp_ssim_after_resize imgCheck imgCheck ∧
      cmp_ssim_after_resize imgCheck imgCheck ≤ 1) := by
  have hcon : ∀ src dst m, orbPrims0.homography src dst = some m →
      m.length = src.length := fun src dst m h => Option.noConfusion h
  exact ⟨hcon, by decide, by decide,
    (C3_score_ranges hash0 orbPrims0 imgCheck imgCheck).2.2.1 hcon,
    (C3_score_ranges hash0 orbPrims0 imgCheck imgCheck).2.2.2 (by decide) (by decide)⟩

end PyWin
